import Mathlib

/-!
Shallow embedding of the credentials-relay subsystem of the AWS Documents
language-server VS Code client (`src/lsp/client/vscode`): the encryption-key
handoff written to the worker's stdin, the JWE credential envelope, the
update/delete notification flows, and the extension activation sequence,
together with proofs of the specified properties.

Bytes are modelled as `Nat` values (with explicit `< 256` bounds where the
source works with `Buffer`/`Uint8Array` contents), strings as Lean `String`
or `List Char`.
-/

namespace AwsLsp

/-- Base64 alphabet used by Node's `Buffer.prototype.toString('base64')`
(RFC 4648 standard alphabet), used for the InitMessage `key` field. -/
def b64StdAlphabet : List Char :=
  (List.range 26).map (fun i => Char.ofNat (65 + i)) ++
    (List.range 26).map (fun i => Char.ofNat (97 + i)) ++
    (List.range 10).map (fun i => Char.ofNat (48 + i)) ++ ['+', '/']

/-- Base64url alphabet used by the JOSE compact serialization
(RFC 4648 section 5, no padding), used for the JWE envelope segments. -/
def b64UrlAlphabet : List Char :=
  (List.range 26).map (fun i => Char.ofNat (65 + i)) ++
    (List.range 26).map (fun i => Char.ofNat (97 + i)) ++
    (List.range 10).map (fun i => Char.ofNat (48 + i)) ++ ['-', '_']

/-- Character for a 6-bit group. -/
def b64CharOf (alphabet : List Char) (n : Nat) : Char :=
  alphabet.getD n 'A'

/-- Index of a character in a base64 alphabet (= 64 when absent). -/
def b64IndexOf (alphabet : List Char) (c : Char) : Nat :=
  alphabet.indexOf c

/-- Regroup bytes into 6-bit groups, RFC 4648 style (most significant first). -/
def bytesToSextets : List Nat → List Nat
  | [] => []
  | [b0] => [b0 / 4, b0 % 4 * 16]
  | [b0, b1] => [b0 / 4, b0 % 4 * 16 + b1 / 16, b1 % 16 * 4]
  | b0 :: b1 :: b2 :: rest =>
      b0 / 4 :: (b0 % 4 * 16 + b1 / 16) :: (b1 % 16 * 4 + b2 / 64) :: b2 % 64 ::
        bytesToSextets rest

/-- Reassemble bytes from 6-bit groups; `none` when the group count cannot
arise from a byte string (a single trailing group). -/
def sextetsToBytes : List Nat → Option (List Nat)
  | [] => some []
  | [_] => none
  | [s0, s1] => some [s0 * 4 + s1 / 16]
  | [s0, s1, s2] => some [s0 * 4 + s1 / 16, s1 % 16 * 16 + s2 / 4]
  | s0 :: s1 :: s2 :: s3 :: rest =>
      (sextetsToBytes rest).map fun bs =>
        (s0 * 4 + s1 / 16) :: (s1 % 16 * 16 + s2 / 4) :: (s2 % 4 * 64 + s3) :: bs

/-- RFC 4648 padding characters for a byte string of the given length. -/
def b64Padding (len : Nat) : List Char :=
  if len % 3 = 1 then ['=', '='] else if len % 3 = 2 then ['='] else []

/-- Base64 encoding over a given alphabet, with or without padding. -/
def b64EncodeWith (alphabet : List Char) (pad : Bool) (bytes : List Nat) : List Char :=
  (bytesToSextets bytes).map (b64CharOf alphabet) ++
    (if pad then b64Padding bytes.length else [])

/-- Lenient base64 decoding over a given alphabet (padding characters are
skipped wherever they occur, as Node's decoder does). -/
def b64DecodeWith (alphabet : List Char) (chars : List Char) : Option (List Nat) :=
  let core := chars.filter (· ≠ '=')
  if core.all (fun c => b64IndexOf alphabet c < 64) then
    sextetsToBytes (core.map (b64IndexOf alphabet))
  else none

/-- `Buffer.prototype.toString('base64')`. -/
def base64Encode : List Nat → List Char := b64EncodeWith b64StdAlphabet true

/-- `Buffer.from(s, 'base64')`. -/
def base64Decode : List Char → Option (List Nat) := b64DecodeWith b64StdAlphabet

/-- JOSE `BASE64URL` (no padding). -/
def base64UrlEncode : List Nat → List Char := b64EncodeWith b64UrlAlphabet false

/-- JOSE base64url decoding. -/
def base64UrlDecode : List Char → Option (List Nat) := b64DecodeWith b64UrlAlphabet

theorem bytesToSextets_lt (bytes : List Nat) (h : ∀ b ∈ bytes, b < 256) :
    ∀ s ∈ bytesToSextets bytes, s < 64 := by
  induction bytes using bytesToSextets.induct with
  | case1 => simp [bytesToSextets]
  | case2 b0 =>
      have hb0 := h b0 (by simp)
      simp only [bytesToSextets, List.mem_cons, List.not_mem_nil, or_false]
      rintro s (rfl | rfl) <;> omega
  | case3 b0 b1 =>
      have hb0 := h b0 (by simp)
      have hb1 := h b1 (by simp)
      simp only [bytesToSextets, List.mem_cons, List.not_mem_nil, or_false]
      rintro s (rfl | rfl | rfl) <;> omega
  | case4 b0 b1 b2 rest ih =>
      have hb0 := h b0 (by simp)
      have hb1 := h b1 (by simp)
      have hb2 := h b2 (by simp)
      simp only [bytesToSextets, List.mem_cons]
      rintro s (rfl | rfl | rfl | rfl | hs)
      · omega
      · omega
      · omega
      · omega
      · exact ih (fun b hb => h b (by simp [hb])) s hs

theorem sextetsToBytes_bytesToSextets (bytes : List Nat) (h : ∀ b ∈ bytes, b < 256) :
    sextetsToBytes (bytesToSextets bytes) = some bytes := by
  induction bytes using bytesToSextets.induct with
  | case1 => rfl
  | case2 b0 =>
      have hb0 := h b0 (by simp)
      simp only [bytesToSextets, sextetsToBytes, Option.some.injEq, List.cons.injEq,
        and_true]
      omega
  | case3 b0 b1 =>
      have hb0 := h b0 (by simp)
      have hb1 := h b1 (by simp)
      simp only [bytesToSextets, sextetsToBytes, Option.some.injEq, List.cons.injEq,
        and_true]
      refine ⟨by omega, by omega⟩
  | case4 b0 b1 b2 rest ih =>
      have hb0 := h b0 (by simp)
      have hb1 := h b1 (by simp)
      have hb2 := h b2 (by simp)
      have ih' := ih (fun b hb => h b (by simp [hb]))
      simp only [bytesToSextets, sextetsToBytes, ih', Option.map_some', Option.some.injEq,
        List.cons.injEq]
      refine ⟨by omega, by omega, by omega, trivial⟩

theorem b64IndexOf_b64CharOf_std :
    ∀ n, n < 64 → b64IndexOf b64StdAlphabet (b64CharOf b64StdAlphabet n) = n := by
  decide

theorem b64IndexOf_b64CharOf_url :
    ∀ n, n < 64 → b64IndexOf b64UrlAlphabet (b64CharOf b64UrlAlphabet n) = n := by
  decide

theorem b64CharOf_ne_of_forall {alphabet : List Char} {c : Char}
    (hmem : ∀ a ∈ alphabet, a ≠ c) (hdef : 'A' ≠ c) (n : Nat) :
    b64CharOf alphabet n ≠ c := by
  unfold b64CharOf
  rcases Nat.lt_or_ge n alphabet.length with hlt | hge
  · rw [List.getD_eq_getElem _ _ hlt]
    exact hmem _ (List.getElem_mem hlt)
  · rw [List.getD_eq_default _ _ hge]
    exact hdef

theorem b64CharOf_std_ne_pad (n : Nat) : b64CharOf b64StdAlphabet n ≠ '=' :=
  b64CharOf_ne_of_forall (by decide) (by decide) n

theorem b64CharOf_url_ne_pad (n : Nat) : b64CharOf b64UrlAlphabet n ≠ '=' :=
  b64CharOf_ne_of_forall (by decide) (by decide) n

theorem b64CharOf_url_ne_dot (n : Nat) : b64CharOf b64UrlAlphabet n ≠ '.' :=
  b64CharOf_ne_of_forall (by decide) (by decide) n

theorem b64Padding_all_pad (len : Nat) : ∀ c ∈ b64Padding len, c = '=' := by
  unfold b64Padding
  split <;> [skip; split] <;> simp

theorem b64DecodeWith_b64EncodeWith (alphabet : List Char)
    (hinj : ∀ n, n < 64 → b64IndexOf alphabet (b64CharOf alphabet n) = n)
    (hne : ∀ n, b64CharOf alphabet n ≠ '=') (pad : Bool) (bytes : List Nat)
    (h : ∀ b ∈ bytes, b < 256) :
    b64DecodeWith alphabet (b64EncodeWith alphabet pad bytes) = some bytes := by
  have hsex := bytesToSextets_lt bytes h
  have hfilter :
      (b64EncodeWith alphabet pad bytes).filter (· ≠ '=') =
        (bytesToSextets bytes).map (b64CharOf alphabet) := by
    unfold b64EncodeWith
    rw [List.filter_append]
    have h1 : ((bytesToSextets bytes).map (b64CharOf alphabet)).filter (· ≠ '=') =
        (bytesToSextets bytes).map (b64CharOf alphabet) := by
      apply List.filter_eq_self.mpr
      intro c hc
      rcases List.mem_map.mp hc with ⟨s, _, rfl⟩
      simpa using hne s
    have h2 : (if pad then b64Padding bytes.length else []).filter (· ≠ '=') = [] := by
      cases pad
      · simp
      · simp only [if_pos]
        apply List.filter_eq_nil_iff.mpr
        intro c hc
        simpa using b64Padding_all_pad bytes.length c hc
    rw [h1, h2, List.append_nil]
  unfold b64DecodeWith
  rw [hfilter]
  have hall : ((bytesToSextets bytes).map (b64CharOf alphabet)).all
      (fun c => b64IndexOf alphabet c < 64) = true := by
    apply List.all_eq_true.mpr
    intro c hc
    rcases List.mem_map.mp hc with ⟨s, hs, rfl⟩
    have := hsex s hs
    simp [hinj s this, this]
  rw [if_pos hall]
  rw [List.map_map]
  have hmap : (bytesToSextets bytes).map (b64IndexOf alphabet ∘ b64CharOf alphabet) =
      bytesToSextets bytes := by
    conv_rhs => rw [← List.map_id (bytesToSextets bytes)]
    apply List.map_congr_left
    intro s hs
    exact hinj s (hsex s hs)
  rw [hmap]
  exact sextetsToBytes_bytesToSextets bytes h

theorem base64Decode_base64Encode (bytes : List Nat) (h : ∀ b ∈ bytes, b < 256) :
    base64Decode (base64Encode bytes) = some bytes :=
  b64DecodeWith_b64EncodeWith b64StdAlphabet b64IndexOf_b64CharOf_std
    b64CharOf_std_ne_pad true bytes h

theorem base64UrlDecode_base64UrlEncode (bytes : List Nat) (h : ∀ b ∈ bytes, b < 256) :
    base64UrlDecode (base64UrlEncode bytes) = some bytes :=
  b64DecodeWith_b64EncodeWith b64UrlAlphabet b64IndexOf_b64CharOf_url
    b64CharOf_url_ne_pad false bytes h

theorem base64UrlEncode_not_mem_dot (bytes : List Nat) :
    '.' ∉ base64UrlEncode bytes := by
  intro hmem
  unfold base64UrlEncode b64EncodeWith at hmem
  rw [if_neg (by simp), List.append_nil] at hmem
  rcases List.mem_map.mp hmem with ⟨s, _, hs⟩
  exact b64CharOf_url_ne_dot s hs

/-- UTF-8 encoding of one Unicode scalar value, as performed by
`TextEncoder.prototype.encode` character by character. -/
def utf8EncodeChar (c : Char) : List Nat :=
  if c.toNat < 128 then [c.toNat]
  else if c.toNat < 2048 then [192 + c.toNat / 64, 128 + c.toNat % 64]
  else if c.toNat < 65536 then
    [224 + c.toNat / 4096, 128 + c.toNat / 64 % 64, 128 + c.toNat % 64]
  else
    [240 + c.toNat / 262144, 128 + c.toNat / 4096 % 64, 128 + c.toNat / 64 % 64,
     128 + c.toNat % 64]

/-- UTF-8 encoding of a character sequence (`TextEncoder.prototype.encode`). -/
def utf8Encode : List Char → List Nat
  | [] => []
  | c :: cs => utf8EncodeChar c ++ utf8Encode cs

/-- Decode one UTF-8 sequence from the front of a byte list, returning the
character and the remaining bytes. Lenient about overlong forms; fails on
truncated sequences and stray continuation bytes. -/
def utf8DecodeChar : List Nat → Option (Char × List Nat)
  | [] => none
  | b :: bs =>
    if b < 128 then some (Char.ofNat b, bs)
    else if b < 192 then none
    else if b < 224 then
      match bs with
      | b1 :: rest => some (Char.ofNat ((b - 192) * 64 + (b1 - 128)), rest)
      | [] => none
    else if b < 240 then
      match bs with
      | b1 :: b2 :: rest =>
          some (Char.ofNat ((b - 224) * 4096 + (b1 - 128) * 64 + (b2 - 128)), rest)
      | _ => none
    else
      match bs with
      | b1 :: b2 :: b3 :: rest =>
          some (Char.ofNat ((b - 240) * 262144 + (b1 - 128) * 4096 +
            (b2 - 128) * 64 + (b3 - 128)), rest)
      | _ => none

/-- Fuel-driven decoding loop; every UTF-8 sequence consumes at least one
byte, so byte-count fuel is always sufficient. -/
def utf8DecodeLoop : Nat → List Nat → Option (List Char)
  | _, [] => some []
  | 0, _ :: _ => none
  | fuel + 1, b :: bs =>
      match utf8DecodeChar (b :: bs) with
      | none => none
      | some (c, rest) => (utf8DecodeLoop fuel rest).map (c :: ·)

/-- UTF-8 decoding of a byte sequence back to characters (the worker's
text decoding of the received plaintext). -/
def utf8Decode (bs : List Nat) : Option (List Char) :=
  utf8DecodeLoop bs.length bs

theorem Char.toNat_lt_top (c : Char) : c.toNat < 1114112 := by
  rcases c.valid with h | ⟨_, h⟩
  · exact Nat.lt_trans h (by decide)
  · exact h

theorem utf8EncodeChar_lt (c : Char) : ∀ b ∈ utf8EncodeChar c, b < 256 := by
  have hv := Char.toNat_lt_top c
  unfold utf8EncodeChar
  by_cases h1 : c.toNat < 128
  · rw [if_pos h1]
    simp only [List.mem_singleton]
    omega
  · rw [if_neg h1]
    by_cases h2 : c.toNat < 2048
    · rw [if_pos h2]
      simp only [List.mem_cons, List.not_mem_nil, or_false]
      rintro b (rfl | rfl) <;> omega
    · rw [if_neg h2]
      by_cases h3 : c.toNat < 65536
      · rw [if_pos h3]
        simp only [List.mem_cons, List.not_mem_nil, or_false]
        rintro b (rfl | rfl | rfl) <;> omega
      · rw [if_neg h3]
        simp only [List.mem_cons, List.not_mem_nil, or_false]
        rintro b (rfl | rfl | rfl | rfl) <;> omega

theorem utf8Encode_lt (s : List Char) : ∀ b ∈ utf8Encode s, b < 256 := by
  induction s with
  | nil => simp [utf8Encode]
  | cons c cs ih =>
      intro b hb
      rcases List.mem_append.mp hb with h | h
      · exact utf8EncodeChar_lt c b h
      · exact ih b h

theorem utf8DecodeChar_utf8EncodeChar (c : Char) (bs : List Nat) :
    utf8DecodeChar (utf8EncodeChar c ++ bs) = some (c, bs) := by
  have hv := Char.toNat_lt_top c
  unfold utf8EncodeChar
  by_cases h1 : c.toNat < 128
  · rw [if_pos h1]
    show utf8DecodeChar (c.toNat :: bs) = _
    simp only [utf8DecodeChar]
    rw [if_pos h1, Char.ofNat_toNat]
  · rw [if_neg h1]
    by_cases h2 : c.toNat < 2048
    · rw [if_pos h2]
      show utf8DecodeChar ((192 + c.toNat / 64) :: (128 + c.toNat % 64) :: bs) = _
      simp only [utf8DecodeChar]
      rw [if_neg (by omega), if_neg (by omega), if_pos (by omega)]
      have harith : (192 + c.toNat / 64 - 192) * 64 + (128 + c.toNat % 64 - 128) =
          c.toNat := by
        omega
      rw [harith, Char.ofNat_toNat]
    · rw [if_neg h2]
      by_cases h3 : c.toNat < 65536
      · rw [if_pos h3]
        show utf8DecodeChar ((224 + c.toNat / 4096) :: (128 + c.toNat / 64 % 64) ::
          (128 + c.toNat % 64) :: bs) = _
        simp only [utf8DecodeChar]
        rw [if_neg (by omega), if_neg (by omega), if_neg (by omega), if_pos (by omega)]
        have harith : (224 + c.toNat / 4096 - 224) * 4096 +
            (128 + c.toNat / 64 % 64 - 128) * 64 + (128 + c.toNat % 64 - 128) =
            c.toNat := by
          omega
        rw [harith, Char.ofNat_toNat]
      · rw [if_neg h3]
        show utf8DecodeChar ((240 + c.toNat / 262144) :: (128 + c.toNat / 4096 % 64) ::
          (128 + c.toNat / 64 % 64) :: (128 + c.toNat % 64) :: bs) = _
        simp only [utf8DecodeChar]
        rw [if_neg (by omega), if_neg (by omega), if_neg (by omega), if_neg (by omega)]
        have harith : (240 + c.toNat / 262144 - 240) * 262144 +
            (128 + c.toNat / 4096 % 64 - 128) * 4096 +
            (128 + c.toNat / 64 % 64 - 128) * 64 + (128 + c.toNat % 64 - 128) =
            c.toNat := by
          omega
        rw [harith, Char.ofNat_toNat]

theorem utf8EncodeChar_ne_nil (c : Char) : utf8EncodeChar c ≠ [] := by
  unfold utf8EncodeChar
  by_cases h1 : c.toNat < 128
  · rw [if_pos h1]
    simp
  · rw [if_neg h1]
    by_cases h2 : c.toNat < 2048
    · rw [if_pos h2]
      simp
    · rw [if_neg h2]
      by_cases h3 : c.toNat < 65536
      · rw [if_pos h3]
        simp
      · rw [if_neg h3]
        simp

theorem length_le_utf8Encode_length (s : List Char) :
    s.length ≤ (utf8Encode s).length := by
  induction s with
  | nil => simp [utf8Encode]
  | cons c cs ih =>
      show cs.length + 1 ≤ (utf8EncodeChar c ++ utf8Encode cs).length
      rw [List.length_append]
      have : 1 ≤ (utf8EncodeChar c).length := by
        rcases hne : utf8EncodeChar c with _ | ⟨b, tail⟩
        · exact absurd hne (utf8EncodeChar_ne_nil c)
        · simp
      omega

theorem utf8DecodeLoop_utf8Encode :
    ∀ (s : List Char) (fuel : Nat), s.length ≤ fuel →
      utf8DecodeLoop fuel (utf8Encode s) = some s := by
  intro s
  induction s with
  | nil =>
      intro fuel _
      cases fuel <;> rfl
  | cons c cs ih =>
      intro fuel hle
      obtain ⟨fuel', rfl⟩ : ∃ f, fuel = f + 1 := by
        rcases fuel with _ | f
        · simp at hle
        · exact ⟨f, rfl⟩
      rcases hne : utf8EncodeChar c with _ | ⟨b, tail⟩
      · exact absurd hne (utf8EncodeChar_ne_nil c)
      · have hchar := utf8DecodeChar_utf8EncodeChar c (utf8Encode cs)
        rw [hne, List.cons_append] at hchar
        show utf8DecodeLoop (fuel' + 1) (utf8EncodeChar c ++ utf8Encode cs) = _
        rw [hne, List.cons_append]
        simp only [utf8DecodeLoop, hchar]
        rw [ih fuel' (by simp only [List.length_cons] at hle; omega)]
        rfl

theorem utf8Decode_utf8Encode (s : List Char) : utf8Decode (utf8Encode s) = some s :=
  utf8DecodeLoop_utf8Encode s _ (length_le_utf8Encode_length s)

/-- Left curly brace (written via its code point to keep it out of string
literals). -/
def lbrace : Char := Char.ofNat 123

/-- Right curly brace. -/
def rbrace : Char := Char.ofNat 125

/-- Lowercase hexadecimal digits, as emitted by `JSON.stringify` in
`\u00xx` escapes. -/
def hexDigits : List Char :=
  (List.range 10).map (fun i => Char.ofNat (48 + i)) ++
    (List.range 6).map (fun i => Char.ofNat (97 + i))

def hexDigit (n : Nat) : Char := hexDigits.getD n '0'

def hexVal (c : Char) : Nat := hexDigits.indexOf c

theorem hexVal_hexDigit : ∀ n, n < 16 → hexVal (hexDigit n) = n := by decide

/-- The escape sequence `JSON.stringify` emits for one character inside a
JSON string: `\"` and `\\`, the five short control escapes, `\u00xx` for the
other control characters, and the character itself otherwise. -/
def escapeChar (c : Char) : List Char :=
  if c = '"' then ['\\', '"']
  else if c = '\\' then ['\\', '\\']
  else if c = Char.ofNat 8 then ['\\', 'b']
  else if c = Char.ofNat 9 then ['\\', 't']
  else if c = Char.ofNat 10 then ['\\', 'n']
  else if c = Char.ofNat 12 then ['\\', 'f']
  else if c = Char.ofNat 13 then ['\\', 'r']
  else if c.toNat < 32 then
    ['\\', 'u', '0', '0', hexDigit (c.toNat / 16), hexDigit (c.toNat % 16)]
  else [c]

/-- `JSON.stringify` escaping of a whole string body. -/
def escapeString : List Char → List Char
  | [] => []
  | c :: cs => escapeChar c ++ escapeString cs

/-- Inverse of the short escapes: `\b`, `\t`, `\n`, `\f`, `\r`, and the
identity cases `\"`, `\\`, `\/`. -/
def unescapeShortChar (e : Char) : Char :=
  if e = 'b' then Char.ofNat 8
  else if e = 't' then Char.ofNat 9
  else if e = 'n' then Char.ofNat 10
  else if e = 'f' then Char.ofNat 12
  else if e = 'r' then Char.ofNat 13
  else e

/-- One step of JSON string-body parsing: either the closing quote or one
(possibly escaped) character. -/
inductive JsonStrStep where
  | close (rest : List Char)
  | chr (c : Char) (rest : List Char)

def parseJsonStringStep : List Char → Option JsonStrStep
  | [] => none
  | c :: rest =>
    if c = '"' then some (.close rest)
    else if c = '\\' then
      match rest with
      | [] => none
      | e :: rest2 =>
        if e = 'u' then
          match rest2 with
          | d1 :: d2 :: d3 :: d4 :: rest3 =>
              some (.chr (Char.ofNat (hexVal d1 * 4096 + hexVal d2 * 256 +
                hexVal d3 * 16 + hexVal d4)) rest3)
          | _ => none
        else some (.chr (unescapeShortChar e) rest2)
    else some (.chr c rest)

/-- Fuel-driven JSON string-body parser; each step consumes at least one
character, so character-count fuel is always sufficient. Returns the
unescaped body and the input after the closing quote. -/
def parseJsonStringLoop : Nat → List Char → Option (List Char × List Char)
  | 0, _ => none
  | fuel + 1, cs =>
      match parseJsonStringStep cs with
      | none => none
      | some (.close rest) => some ([], rest)
      | some (.chr c rest) =>
          (parseJsonStringLoop fuel rest).map (fun p => (c :: p.1, p.2))

def parseJsonString (cs : List Char) : Option (List Char × List Char) :=
  parseJsonStringLoop cs.length cs

theorem escapeChar_ne_nil (c : Char) : escapeChar c ≠ [] := by
  unfold escapeChar
  split
  · simp
  · split
    · simp
    · split
      · simp
      · split
        · simp
        · split
          · simp
          · split
            · simp
            · split
              · simp
              · split
                · simp
                · simp

theorem parseJsonStringStep_escapeChar (c : Char) (tail : List Char) :
    parseJsonStringStep (escapeChar c ++ tail) = some (.chr c tail) := by
  unfold escapeChar
  by_cases h1 : c = '"'
  · subst h1
    rw [if_pos rfl]
    simp [parseJsonStringStep, unescapeShortChar]
  · rw [if_neg h1]
    by_cases h2 : c = '\\'
    · subst h2
      rw [if_pos rfl]
      simp [parseJsonStringStep, unescapeShortChar]
    · rw [if_neg h2]
      by_cases h3 : c = Char.ofNat 8
      · subst h3
        rw [if_pos rfl]
        simp [parseJsonStringStep, unescapeShortChar]
      · rw [if_neg h3]
        by_cases h4 : c = Char.ofNat 9
        · subst h4
          rw [if_pos rfl]
          simp [parseJsonStringStep, unescapeShortChar]
        · rw [if_neg h4]
          by_cases h5 : c = Char.ofNat 10
          · subst h5
            rw [if_pos rfl]
            simp [parseJsonStringStep, unescapeShortChar]
          · rw [if_neg h5]
            by_cases h6 : c = Char.ofNat 12
            · subst h6
              rw [if_pos rfl]
              simp [parseJsonStringStep, unescapeShortChar]
            · rw [if_neg h6]
              by_cases h7 : c = Char.ofNat 13
              · subst h7
                rw [if_pos rfl]
                simp [parseJsonStringStep, unescapeShortChar]
              · rw [if_neg h7]
                by_cases h8 : c.toNat < 32
                · rw [if_pos h8]
                  show parseJsonStringStep
                    ('\\' :: 'u' :: '0' :: '0' :: hexDigit (c.toNat / 16) ::
                      hexDigit (c.toNat % 16) :: tail) = _
                  simp only [parseJsonStringStep, if_true]
                  have hhi : hexVal (hexDigit (c.toNat / 16)) = c.toNat / 16 :=
                    hexVal_hexDigit _ (by omega)
                  have hlo : hexVal (hexDigit (c.toNat % 16)) = c.toNat % 16 :=
                    hexVal_hexDigit _ (by omega)
                  have h0 : hexVal '0' = 0 := by decide
                  rw [h0, hhi, hlo]
                  have harith : 0 * 4096 + 0 * 256 + c.toNat / 16 * 16 + c.toNat % 16 =
                      c.toNat := by
                    omega
                  rw [harith, Char.ofNat_toNat, if_neg (show ¬('\\' = '"') by decide)]
                · rw [if_neg h8]
                  show parseJsonStringStep (c :: tail) = _
                  simp only [parseJsonStringStep]
                  rw [if_neg h1, if_neg h2]

theorem parseJsonStringLoop_escape :
    ∀ (s : List Char) (tail : List Char) (fuel : Nat),
      (escapeString s).length + 1 ≤ fuel →
      parseJsonStringLoop fuel (escapeString s ++ '"' :: tail) = some (s, tail) := by
  intro s
  induction s with
  | nil =>
      intro tail fuel hle
      obtain ⟨f, rfl⟩ : ∃ f, fuel = f + 1 := by
        rcases fuel with _ | f
        · simp [escapeString] at hle
        · exact ⟨f, rfl⟩
      show parseJsonStringLoop (f + 1) ('"' :: tail) = _
      simp only [parseJsonStringLoop, parseJsonStringStep, if_true]
  | cons c cs ih =>
      intro tail fuel hle
      have hlen : 1 ≤ (escapeChar c).length := by
        rcases hne : escapeChar c with _ | ⟨x, xs⟩
        · exact absurd hne (escapeChar_ne_nil c)
        · simp
      have hlens : (escapeString (c :: cs)).length =
          (escapeChar c).length + (escapeString cs).length := by
        show (escapeChar c ++ escapeString cs).length = _
        simp
      obtain ⟨f, rfl⟩ : ∃ f, fuel = f + 1 := by
        rcases fuel with _ | f
        · omega
        · exact ⟨f, rfl⟩
      have hstep := parseJsonStringStep_escapeChar c (escapeString cs ++ '"' :: tail)
      show parseJsonStringLoop (f + 1)
        ((escapeChar c ++ escapeString cs) ++ '"' :: tail) = _
      rw [List.append_assoc]
      simp only [parseJsonStringLoop, hstep]
      rw [ih tail f (by omega)]
      rfl

theorem parseJsonString_escapeString (s tail : List Char) :
    parseJsonString (escapeString s ++ '"' :: tail) = some (s, tail) := by
  unfold parseJsonString
  apply parseJsonStringLoop_escape
  simp

theorem String_mk_data (s : String) : String.mk s.data = s := rfl

/-- The shape of the credential payload sent in the update request
(`UpdateIamCredentialsRequestData` in `credentialsActivation.ts`):
`sessionToken` is an optional property. -/
structure UpdateIamCredentialsRequestData where
  accessKeyId : String
  secretAccessKey : String
  sessionToken : Option String
deriving DecidableEq

/-- The resolved credentials returned by the external credential source
(`AwsCredentialIdentity` from `@aws-sdk/types`). -/
structure AwsCredentialIdentity where
  accessKeyId : String
  secretAccessKey : String
  sessionToken : Option String
deriving DecidableEq

def accessKeyIdKey : List Char :=
  ['a','c','c','e','s','s','K','e','y','I','d']

def secretAccessKeyKey : List Char :=
  ['s','e','c','r','e','t','A','c','c','e','s','s','K','e','y']

def sessionTokenKey : List Char :=
  ['s','e','s','s','i','o','n','T','o','k','e','n']

/-- The own enumerable properties of the `requestData` object in the order
`JSON.stringify` serializes them. A property whose value is `undefined`
(an absent `sessionToken`) is dropped by `JSON.stringify`. -/
def requestDataFields (d : UpdateIamCredentialsRequestData) :
    List (List Char × List Char) :=
  [(accessKeyIdKey, d.accessKeyId.data), (secretAccessKeyKey, d.secretAccessKey.data)] ++
    (match d.sessionToken with
     | none => []
     | some t => [(sessionTokenKey, t.data)])

/-- `JSON.stringify` rendering of one string-valued property. -/
def renderField (kv : List Char × List Char) : List Char :=
  '"' :: escapeString kv.1 ++ '"' :: ':' :: '"' :: escapeString kv.2 ++ ['"']

/-- `JSON.stringify` rendering of the comma-separated property list. -/
def renderFields : List (List Char × List Char) → List Char
  | [] => []
  | [kv] => renderField kv
  | kv :: rest => renderField kv ++ ',' :: renderFields rest

/-- `JSON.stringify` rendering of an object all of whose values are strings. -/
def renderStringObject (fs : List (List Char × List Char)) : List Char :=
  lbrace :: renderFields fs ++ [rbrace]

/-- `JSON.stringify({ data: requestData })`: the exact plaintext handed to
`TextEncoder` in `createUpdateIamCredentialsRequest`. -/
def serializeUpdateIamCredentialsRequestData
    (d : UpdateIamCredentialsRequestData) : List Char :=
  lbrace :: '"' :: 'd' :: 'a' :: 't' :: 'a' :: '"' :: ':' ::
    (renderStringObject (requestDataFields d) ++ [rbrace])

/-- Consume an expected literal prefix. -/
def expectChars : List Char → List Char → Option (List Char)
  | [], cs => some cs
  | _ :: _, [] => none
  | p :: ps, c :: cs => if c = p then expectChars ps cs else none

theorem expectChars_append (pre rest : List Char) :
    expectChars pre (pre ++ rest) = some rest := by
  induction pre with
  | nil => rfl
  | cons p ps ih => simp [expectChars, ih]

def updateReqPrefix1 : List Char :=
  lbrace :: '"' :: 'd' :: 'a' :: 't' :: 'a' :: '"' :: ':' :: lbrace :: '"' ::
    accessKeyIdKey ++ ['"', ':', '"']

def updateReqPrefix2 : List Char :=
  ',' :: '"' :: secretAccessKeyKey ++ ['"', ':', '"']

def updateReqPrefix3 : List Char :=
  ',' :: '"' :: sessionTokenKey ++ ['"', ':', '"']

/-- Modelled from the spec: the worker-side deserialization of the decrypted
plaintext back into the credential triple (the server's
`updateCredentialsRequest` handling lives in `core/aws-lsp-core`, outside
`src/`). Accepts exactly the object shape produced by
`serializeUpdateIamCredentialsRequestData`. -/
def parseUpdateIamCredentialsRequestData (cs : List Char) :
    Option UpdateIamCredentialsRequestData :=
  (expectChars updateReqPrefix1 cs).bind fun cs1 =>
  (parseJsonString cs1).bind fun p1 =>
  (expectChars updateReqPrefix2 p1.2).bind fun cs3 =>
  (parseJsonString cs3).bind fun p2 =>
  if p2.2 = [rbrace, rbrace] then
    some ⟨⟨p1.1⟩, ⟨p2.1⟩, none⟩
  else
    (expectChars updateReqPrefix3 p2.2).bind fun cs5 =>
    (parseJsonString cs5).bind fun p3 =>
    if p3.2 = [rbrace, rbrace] then
      some ⟨⟨p1.1⟩, ⟨p2.1⟩, some ⟨p3.1⟩⟩
    else none

theorem escapeString_accessKeyIdKey : escapeString accessKeyIdKey = accessKeyIdKey := by
  decide

theorem escapeString_secretAccessKeyKey :
    escapeString secretAccessKeyKey = secretAccessKeyKey := by
  decide

theorem escapeString_sessionTokenKey :
    escapeString sessionTokenKey = sessionTokenKey := by
  decide

theorem serialize_none_eq (a s : String) :
    serializeUpdateIamCredentialsRequestData ⟨a, s, none⟩ =
      updateReqPrefix1 ++ (escapeString a.data ++ '"' ::
        (updateReqPrefix2 ++ (escapeString s.data ++ '"' :: [rbrace, rbrace]))) := by
  simp only [serializeUpdateIamCredentialsRequestData, requestDataFields,
    renderStringObject, renderFields, renderField, escapeString_accessKeyIdKey,
    escapeString_secretAccessKeyKey, updateReqPrefix1, updateReqPrefix2,
    List.cons_append, List.append_assoc, List.nil_append, List.append_nil,
    List.singleton_append]

theorem serialize_some_eq (a s t : String) :
    serializeUpdateIamCredentialsRequestData ⟨a, s, some t⟩ =
      updateReqPrefix1 ++ (escapeString a.data ++ '"' ::
        (updateReqPrefix2 ++ (escapeString s.data ++ '"' ::
          (updateReqPrefix3 ++ (escapeString t.data ++ '"' ::
            [rbrace, rbrace]))))) := by
  simp only [serializeUpdateIamCredentialsRequestData, requestDataFields,
    renderStringObject, renderFields, renderField, escapeString_accessKeyIdKey,
    escapeString_secretAccessKeyKey, escapeString_sessionTokenKey,
    updateReqPrefix1, updateReqPrefix2, updateReqPrefix3,
    List.cons_append, List.append_assoc, List.nil_append, List.append_nil,
    List.singleton_append]

theorem updateReqPrefix3_append_ne (x : List Char) :
    updateReqPrefix3 ++ x ≠ [rbrace, rbrace] := by
  intro h
  have hlen := congrArg List.length h
  simp [updateReqPrefix3, sessionTokenKey] at hlen

theorem parse_serialize (d : UpdateIamCredentialsRequestData) :
    parseUpdateIamCredentialsRequestData
      (serializeUpdateIamCredentialsRequestData d) = some d := by
  rcases d with ⟨a, s, tok⟩
  rcases tok with _ | t
  · rw [serialize_none_eq]
    unfold parseUpdateIamCredentialsRequestData
    rw [expectChars_append, Option.some_bind, parseJsonString_escapeString,
      Option.some_bind]
    rw [show ((a.data, updateReqPrefix2 ++ (escapeString s.data ++ '"' ::
      [rbrace, rbrace]))).2 = updateReqPrefix2 ++ (escapeString s.data ++ '"' ::
      [rbrace, rbrace]) from rfl]
    rw [expectChars_append, Option.some_bind, parseJsonString_escapeString,
      Option.some_bind]
    rw [if_pos rfl]
  · rw [serialize_some_eq]
    unfold parseUpdateIamCredentialsRequestData
    rw [expectChars_append, Option.some_bind, parseJsonString_escapeString,
      Option.some_bind]
    rw [show ((a.data, updateReqPrefix2 ++ (escapeString s.data ++ '"' ::
      (updateReqPrefix3 ++ (escapeString t.data ++ '"' :: [rbrace, rbrace]))))).2 =
      updateReqPrefix2 ++ (escapeString s.data ++ '"' ::
      (updateReqPrefix3 ++ (escapeString t.data ++ '"' :: [rbrace, rbrace])))
      from rfl]
    rw [expectChars_append, Option.some_bind, parseJsonString_escapeString,
      Option.some_bind]
    rw [if_neg (updateReqPrefix3_append_ne _)]
    rw [expectChars_append, Option.some_bind, parseJsonString_escapeString,
      Option.some_bind]
    rw [if_pos rfl]

/-- Symbolic A256GCM keystream: a deterministic byte stream derived from
the key and IV. Any deterministic byte-valued function works for the
counter-mode model; XOR-ing twice with the same stream is the identity. -/
def gcmKeystream (key iv : List Nat) (n : Nat) : List Nat :=
  (List.range n).map fun i => (key.getD (i % 32) 0 + iv.getD (i % 12) 0 + i) % 256

/-- Counter-mode encryption/decryption body of A256GCM: XOR with the
keystream (applying it twice restores the input). -/
def gcmCtrCrypt (key iv input : List Nat) : List Nat :=
  List.zipWith Nat.xor input (gcmKeystream key iv input.length)

/-- Modelled from the spec: the GCM authentication tag, idealized as an
injective function of (key, IV, ciphertext) so that verification under any
other key fails, per section 4.3 ("tampering with any byte causes
decryption to fail"; wrong-key decryption "fails rather than returning a
value"). -/
def gcmTag (key iv ct : List Nat) : List Nat := key ++ iv ++ ct

/-- `JSON.stringify` of the protected header `{ alg: 'dir', enc: 'A256GCM' }`
set by `createUpdateIamCredentialsRequest`. -/
def joseProtectedHeader : List Char :=
  renderStringObject
    [(['a','l','g'], ['d','i','r']), (['e','n','c'], ['A','2','5','6','G','C','M'])]

/-- BASE64URL of the UTF-8 protected header: the first segment of the
compact JWE. -/
def joseProtectedHeaderB64 : List Char :=
  base64UrlEncode (utf8Encode joseProtectedHeader)

/-- The JOSE compact JWE serialization produced by
`jose.CompactEncrypt(payload).setProtectedHeader({alg:'dir',enc:'A256GCM'}).encrypt(key)`:
`BASE64URL(header) '.' BASE64URL(encryptedKey) '.' BASE64URL(iv) '.'
BASE64URL(ciphertext) '.' BASE64URL(tag)`, with an empty encrypted-key
segment for direct key agreement (`alg: 'dir'`). The fresh random IV is
passed explicitly. -/
def compactJweEncrypt (key iv plaintext : List Nat) : List Char :=
  joseProtectedHeaderB64 ++ '.' ::
    (base64UrlEncode [] ++ '.' ::
      (base64UrlEncode iv ++ '.' ::
        (base64UrlEncode (gcmCtrCrypt key iv plaintext) ++ '.' ::
          base64UrlEncode (gcmTag key iv (gcmCtrCrypt key iv plaintext)))))

/-- Split a character list at every dot (the compact-serialization
segment separator). -/
def splitDots : List Char → List (List Char)
  | [] => [[]]
  | c :: cs =>
      if c = '.' then [] :: splitDots cs
      else (c :: (splitDots cs).headD []) :: (splitDots cs).tail

/-- Modelled from the spec: the worker-side `jose.compactDecrypt` with the
received key (the server code lives in `core/aws-lsp-core`, outside `src/`):
parse the five segments, check the protected header and the empty
encrypted-key segment required by `dir`, verify the authentication tag
under the provided key, and only then undo the counter-mode XOR. -/
def compactJweDecrypt (key : List Nat) (jwe : List Char) : Option (List Nat) :=
  match splitDots jwe with
  | [h, ek, ivS, ctS, tagS] =>
      if h = joseProtectedHeaderB64 ∧ ek = [] then
        match base64UrlDecode ivS, base64UrlDecode ctS, base64UrlDecode tagS with
        | some iv, some ct, some tag =>
            if tag = gcmTag key iv ct then
              some (List.zipWith Nat.xor ct (gcmKeystream key iv ct.length))
            else none
        | _, _, _ => none
      else none
  | _ => none

theorem gcmKeystream_length (key iv : List Nat) (n : Nat) :
    (gcmKeystream key iv n).length = n := by
  simp [gcmKeystream]

theorem gcmKeystream_lt (key iv : List Nat) (n : Nat) :
    ∀ b ∈ gcmKeystream key iv n, b < 256 := by
  intro b hb
  rcases List.mem_map.mp hb with ⟨i, _, rfl⟩
  exact Nat.mod_lt _ (by omega)

theorem zipWith_xor_lt (xs ys : List Nat) (hx : ∀ b ∈ xs, b < 256)
    (hy : ∀ b ∈ ys, b < 256) : ∀ b ∈ List.zipWith Nat.xor xs ys, b < 256 := by
  induction xs generalizing ys with
  | nil => simp
  | cons x xs ih =>
      cases ys with
      | nil => simp
      | cons y ys =>
          intro b hb
          rcases List.mem_cons.mp hb with rfl | hb
          · have hx0 : x < 2 ^ 8 := by
              have := hx x (by simp)
              omega
            have hy0 : y < 2 ^ 8 := by
              have := hy y (by simp)
              omega
            have hlt : x ^^^ y < 2 ^ 8 := Nat.xor_lt_two_pow hx0 hy0
            have heq : Nat.xor x y = x ^^^ y := rfl
            rw [heq]
            norm_num at hlt
            exact hlt
          · exact ih ys (fun b hb => hx b (by simp [hb]))
              (fun b hb => hy b (by simp [hb])) b hb

theorem gcmCtrCrypt_length (key iv input : List Nat) :
    (gcmCtrCrypt key iv input).length = input.length := by
  simp [gcmCtrCrypt, gcmKeystream_length]

theorem gcmCtrCrypt_lt (key iv input : List Nat) (h : ∀ b ∈ input, b < 256) :
    ∀ b ∈ gcmCtrCrypt key iv input, b < 256 :=
  zipWith_xor_lt input _ h (gcmKeystream_lt key iv input.length)

theorem zipWith_xor_cancel (pt ks : List Nat) (h : pt.length ≤ ks.length) :
    List.zipWith Nat.xor (List.zipWith Nat.xor pt ks) ks = pt := by
  induction pt generalizing ks with
  | nil => simp
  | cons p ps ih =>
      cases ks with
      | nil => simp at h
      | cons k ks =>
          simp only [List.zipWith_cons_cons, List.cons.injEq]
          refine ⟨Nat.xor_cancel_right k p, ih ks (by simpa using h)⟩

theorem splitDots_no_dot (s : List Char) (h : '.' ∉ s) : splitDots s = [s] := by
  induction s with
  | nil => rfl
  | cons c cs ih =>
      have hc : c ≠ '.' := fun hceq => h (by simp [hceq])
      have ih' := ih (fun hmem => h (by simp [hmem]))
      simp [splitDots, if_neg hc, ih']

theorem splitDots_append (s rest : List Char) (h : '.' ∉ s) :
    splitDots (s ++ '.' :: rest) = s :: splitDots rest := by
  induction s with
  | nil => simp [splitDots]
  | cons c cs ih =>
      have hc : c ≠ '.' := fun hceq => h (by simp [hceq])
      have ih' := ih (fun hmem => h (by simp [hmem]))
      simp only [List.cons_append, splitDots, List.append_eq, if_neg hc, ih',
        List.headD_cons, List.tail_cons]

theorem gcmTag_lt (key iv ct : List Nat) (hkey : ∀ b ∈ key, b < 256)
    (hiv : ∀ b ∈ iv, b < 256) (hct : ∀ b ∈ ct, b < 256) :
    ∀ b ∈ gcmTag key iv ct, b < 256 := by
  intro b hb
  unfold gcmTag at hb
  rcases List.mem_append.mp hb with hb | hb
  · rcases List.mem_append.mp hb with hb | hb
    · exact hkey b hb
    · exact hiv b hb
  · exact hct b hb

theorem splitDots_compactJweEncrypt (key iv pt : List Nat) :
    splitDots (compactJweEncrypt key iv pt) =
      [joseProtectedHeaderB64, base64UrlEncode [], base64UrlEncode iv,
       base64UrlEncode (gcmCtrCrypt key iv pt),
       base64UrlEncode (gcmTag key iv (gcmCtrCrypt key iv pt))] := by
  have hhdr : '.' ∉ joseProtectedHeaderB64 := base64UrlEncode_not_mem_dot _
  unfold compactJweEncrypt
  rw [splitDots_append _ _ hhdr,
      splitDots_append _ _ (base64UrlEncode_not_mem_dot _),
      splitDots_append _ _ (base64UrlEncode_not_mem_dot _),
      splitDots_append _ _ (base64UrlEncode_not_mem_dot _),
      splitDots_no_dot _ (base64UrlEncode_not_mem_dot _)]

theorem compactJweDecrypt_compactJweEncrypt (key iv pt : List Nat)
    (hkey : ∀ b ∈ key, b < 256) (hiv : ∀ b ∈ iv, b < 256)
    (hpt : ∀ b ∈ pt, b < 256) :
    compactJweDecrypt key (compactJweEncrypt key iv pt) = some pt := by
  have hct := gcmCtrCrypt_lt key iv pt hpt
  have htag := gcmTag_lt key iv _ hkey hiv hct
  unfold compactJweDecrypt
  rw [splitDots_compactJweEncrypt]
  dsimp only
  rw [if_pos (And.intro rfl (show base64UrlEncode ([] : List Nat) = [] from rfl))]
  rw [base64UrlDecode_base64UrlEncode iv hiv,
      base64UrlDecode_base64UrlEncode _ hct,
    base64UrlDecode_base64UrlEncode _ htag]
  dsimp only
  rw [if_pos rfl]
  rw [gcmCtrCrypt_length]
  unfold gcmCtrCrypt
  rw [zipWith_xor_cancel _ _ (by rw [gcmKeystream_length])]

theorem compactJweDecrypt_wrong_key (key key2 iv pt : List Nat)
    (hkey : ∀ b ∈ key, b < 256) (hiv : ∀ b ∈ iv, b < 256)
    (hpt : ∀ b ∈ pt, b < 256) (hne : key2 ≠ key) :
    compactJweDecrypt key2 (compactJweEncrypt key iv pt) = none := by
  have hct := gcmCtrCrypt_lt key iv pt hpt
  have htag := gcmTag_lt key iv _ hkey hiv hct
  unfold compactJweDecrypt
  rw [splitDots_compactJweEncrypt]
  dsimp only
  rw [if_pos (And.intro rfl (show base64UrlEncode ([] : List Nat) = [] from rfl))]
  rw [base64UrlDecode_base64UrlEncode iv hiv,
      base64UrlDecode_base64UrlEncode _ hct,
      base64UrlDecode_base64UrlEncode _ htag]
  dsimp only
  rw [if_neg]
  intro heq
  unfold gcmTag at heq
  have h1 := List.append_cancel_right heq
  have h2 := List.append_cancel_right h1
  exact hne h2.symm

/-- `UpdateCredentialsRequest` (`credentialsActivation.ts`): the body of an
update notification, an encrypted token envelope. -/
structure UpdateCredentialsRequest where
  data : String
deriving DecidableEq

/-- `NotificationType` from `vscode-languageclient`, identified by its
method name. -/
structure NotificationType where
  method : String
deriving DecidableEq

/-- A notification as handed to `languageClient.sendNotification`: the
method identifier and the optional update payload. -/
structure NotificationMessage where
  method : String
  params : Option UpdateCredentialsRequest
deriving DecidableEq

/-- `lspMethodNames` in `credentialsActivation.ts`. -/
structure LspMethodNames where
  iamCredentialsUpdate : String
  iamCredentialsDelete : String

def lspMethodNames : LspMethodNames :=
  { iamCredentialsUpdate := "$/aws/credentials/iam/update",
    iamCredentialsDelete := "$/aws/credentials/iam/delete" }

/-- `notificationTypes` in `credentialsActivation.ts`. -/
structure NotificationTypes where
  updateIamCredentials : NotificationType
  deleteIamCredentials : NotificationType

def notificationTypes : NotificationTypes :=
  { updateIamCredentials := ⟨lspMethodNames.iamCredentialsUpdate⟩,
    deleteIamCredentials := ⟨lspMethodNames.iamCredentialsDelete⟩ }

/-- `JSON.stringify` of the init request built by `writeEncryptionInit`:
`{version: '1.0', mode: 'JWT', key: encryptionKey.toString('base64')}`.
The module-level `encryptionKey = crypto.randomBytes(32)` is passed as the
`key` parameter. -/
def encryptionInitRequestJson (key : List Nat) : List Char :=
  renderStringObject
    [(['v','e','r','s','i','o','n'], ['1','.','0']),
     (['m','o','d','e'], ['J','W','T']),
     (['k','e','y'], base64Encode key)]

/-- The two `stream.write` calls performed by `writeEncryptionInit`: the
serialized init request followed by a newline. -/
def writeEncryptionInit (key : List Nat) : List (List Char) :=
  [encryptionInitRequestJson key, ['\n']]

/-- `credentials` capability object set on the initialization options. -/
structure CredentialsCapability where
  providesIam : Bool
deriving DecidableEq

/-- The `initializationOptions` object: the `credentials` member written by
`configureCredentialsCapabilities` plus whatever other members the host
already placed there. -/
structure InitializationOptions where
  credentials : Option CredentialsCapability
  otherFields : List (String × String)
deriving DecidableEq

/-- `LanguageClientOptions` as used by the activation code: the
`initializationOptions` member plus the members the activation sets
elsewhere (`documentSelector`, `synchronize`) and any further fields. -/
structure LanguageClientOptions where
  documentSelector : List String
  synchronize : Option String
  initializationOptions : Option InitializationOptions
  otherFields : List (String × String)
deriving DecidableEq

/-- `configureCredentialsCapabilities`: create `initializationOptions` when
falsy, then set its `credentials` member to `{providesIam: true}`. -/
def configureCredentialsCapabilities (clientOptions : LanguageClientOptions) :
    LanguageClientOptions :=
  let io := clientOptions.initializationOptions.getD ⟨none, []⟩
  { clientOptions with
      initializationOptions := some { io with credentials := some ⟨true⟩ } }

/-- `createUpdateIamCredentialsRequest`: copy the resolved credentials into
the request data, serialize `{ data: requestData }` with `JSON.stringify`,
UTF-8 encode it (`TextEncoder`), and encrypt it as a compact JWE with
protected header `{alg: 'dir', enc: 'A256GCM'}` under the process
encryption key. The fresh random IV drawn inside `jose` is passed
explicitly. -/
def createUpdateIamCredentialsRequest (awsCredentials : AwsCredentialIdentity)
    (encryptionKey iv : List Nat) : UpdateCredentialsRequest :=
  ⟨⟨compactJweEncrypt encryptionKey iv
      (utf8Encode (serializeUpdateIamCredentialsRequestData
        ⟨awsCredentials.accessKeyId, awsCredentials.secretAccessKey,
         awsCredentials.sessionToken⟩))⟩⟩

/-- `sendIamCredentialsUpdate`: send the request on the update notification
type. -/
def sendIamCredentialsUpdate (request : UpdateCredentialsRequest) :
    NotificationMessage :=
  ⟨notificationTypes.updateIamCredentials.method, some request⟩

/-- The body of the command registered by `createSelectProfileCommand`:
resolve the profile, build the encrypted update request, then send it.
The external credential resolution (`fromIni(profileName)()`) and the
encoding step are oracle parameters so that both success and failure (a
rejected promise) can be analysed; errors propagate exactly as thrown
exceptions abort the `async` body. On success the value is the list of
notifications sent to the worker. -/
def selectProfileCommand (resolveProfile : Except String AwsCredentialIdentity)
    (encode : AwsCredentialIdentity → Except String UpdateCredentialsRequest) :
    Except String (List NotificationMessage) :=
  match resolveProfile with
  | .error e => .error e
  | .ok awsCredentials =>
    match encode awsCredentials with
    | .error e => .error e
    | .ok request => .ok [sendIamCredentialsUpdate request]

/-- The notifications actually transmitted to the worker by one
select-profile invocation; an aborted command sends nothing. -/
def selectProfileNotificationsSent
    (resolveProfile : Except String AwsCredentialIdentity)
    (encode : AwsCredentialIdentity → Except String UpdateCredentialsRequest) :
    List NotificationMessage :=
  match selectProfileCommand resolveProfile encode with
  | .ok sent => sent
  | .error _ => []

/-- The body of the command registered by `createClearProfileCommand`:
unconditionally send the delete notification, regardless of anything sent
before. -/
def clearProfileCommand (_previouslySent : List NotificationMessage) :
    List NotificationMessage :=
  [⟨notificationTypes.deleteIamCredentials.method, none⟩]

/-- The ordered effects of `activateDocumentsLanguageServer` on the worker
process and its protocol channel. -/
inductive LaunchEvent where
  | spawnWorker (command : String) (args : List String)
  | writeWorkerStdin (chars : List Char)
  | startLanguageClient
deriving DecidableEq

/-- Trace of `activateDocumentsLanguageServer` (client `extension.ts`):
`enableEncryptionInit = enableIamProvider || enableBearerTokenProvider`;
when set, the worker is spawned with `--stdio --pre-init-encryption`
appended and `writeEncryptionInit(child.stdin)` runs synchronously before
the language client is constructed; `client.start()` — after which protocol
frames flow on the channel — is always the final step. -/
def activateDocumentsLanguageServer
    (enableIamProvider enableBearerTokenProvider : Bool)
    (serverModule : String) (encryptionKey : List Nat) : List LaunchEvent :=
  let enableEncryptionInit := enableIamProvider || enableBearerTokenProvider
  let debugExecArgv := ["--nolazy", "--inspect=6012", "--preserve-symlinks"]
  if enableEncryptionInit then
    LaunchEvent.spawnWorker "node"
        (serverModule :: debugExecArgv ++ ["--stdio", "--pre-init-encryption"]) ::
      ((writeEncryptionInit encryptionKey).map LaunchEvent.writeWorkerStdin ++
        [LaunchEvent.startLanguageClient])
  else
    [LaunchEvent.startLanguageClient]

/-- Modelled from the spec: the worker-side processing of an update request
under its copy of the key (section 4.3; the server code lives in
`core/aws-lsp-core`, outside `src/`): compact-JWE decryption, UTF-8
decoding, and deserialization of the credential triple. -/
def decryptUpdateIamCredentialsRequest (key : List Nat)
    (request : UpdateCredentialsRequest) : Option UpdateIamCredentialsRequestData :=
  (compactJweDecrypt key request.data.data).bind fun ptBytes =>
  (utf8Decode ptBytes).bind fun ptChars =>
  parseUpdateIamCredentialsRequestData ptChars

theorem base64UrlEncode_nil : base64UrlEncode [] = [] := rfl

/-- Is this event the `client.start()` step? -/
def isStartLanguageClient : LaunchEvent → Bool
  | .startLanguageClient => true
  | _ => false

/-- The bytes-as-characters of a worker-stdin write event. -/
def stdinWriteContent : LaunchEvent → Option (List Char)
  | .writeWorkerStdin chars => some chars
  | _ => none

/-- Everything ever written to the worker's stdin during a launch. -/
def stdinWrites (trace : List LaunchEvent) : List (List Char) :=
  trace.filterMap stdinWriteContent

/-- Everything written to the worker's stdin strictly before the language
client is started (= before any protocol frame can be transmitted). -/
def stdinWritesBeforeClientStart (trace : List LaunchEvent) : List (List Char) :=
  (trace.takeWhile fun e => !isStartLanguageClient e).filterMap stdinWriteContent

theorem escapeString_eq_self_of (s : List Char) (h : ∀ c ∈ s, escapeChar c = [c]) :
    escapeString s = s := by
  induction s with
  | nil => rfl
  | cons c cs ih =>
      show escapeChar c ++ escapeString cs = c :: cs
      rw [h c (by simp), ih (fun c hc => h c (by simp [hc])), List.singleton_append]

theorem b64CharOf_mem_or (alphabet : List Char) (n : Nat) :
    b64CharOf alphabet n ∈ alphabet ∨ b64CharOf alphabet n = 'A' := by
  unfold b64CharOf
  rcases Nat.lt_or_ge n alphabet.length with hlt | hge
  · rw [List.getD_eq_getElem _ _ hlt]
    exact Or.inl (List.getElem_mem hlt)
  · rw [List.getD_eq_default _ _ hge]
    exact Or.inr rfl

theorem escapeChar_mem_b64Std : ∀ c ∈ b64StdAlphabet, escapeChar c = [c] := by
  decide

theorem escapeString_base64Encode (bytes : List Nat) :
    escapeString (base64Encode bytes) = base64Encode bytes := by
  apply escapeString_eq_self_of
  intro c hc
  unfold base64Encode b64EncodeWith at hc
  rcases List.mem_append.mp hc with hc | hc
  · rcases List.mem_map.mp hc with ⟨n, _, rfl⟩
    rcases b64CharOf_mem_or b64StdAlphabet n with hmem | heq
    · exact escapeChar_mem_b64Std _ hmem
    · rw [heq]
      decide
  · rw [if_pos rfl] at hc
    rw [b64Padding_all_pad _ _ hc]
    decide

/-- The fixed part of the serialized InitMessage before the base64 key. -/
def initJsonPrefix : List Char :=
  ("\x7b\"version\":\"1.0\",\"mode\":\"JWT\",\"key\":\"").data

theorem encryptionInitRequestJson_eq (key : List Nat) :
    encryptionInitRequestJson key =
      initJsonPrefix ++ (base64Encode key ++ ('"' :: [rbrace])) := by
  have hver : escapeString ['v','e','r','s','i','o','n'] = ['v','e','r','s','i','o','n'] := by
    decide
  have hononeO : escapeString ['1','.','0'] = ['1','.','0'] := by decide
  have hmode : escapeString ['m','o','d','e'] = ['m','o','d','e'] := by decide
  have hjwt : escapeString ['J','W','T'] = ['J','W','T'] := by decide
  have hkeyk : escapeString ['k','e','y'] = ['k','e','y'] := by decide
  have hpre : initJsonPrefix =
      lbrace :: '"' :: 'v' :: 'e' :: 'r' :: 's' :: 'i' :: 'o' :: 'n' :: '"' :: ':' ::
      '"' :: '1' :: '.' :: '0' :: '"' :: ',' :: '"' :: 'm' :: 'o' :: 'd' :: 'e' ::
      '"' :: ':' :: '"' :: 'J' :: 'W' :: 'T' :: '"' :: ',' :: '"' :: 'k' :: 'e' ::
      'y' :: '"' :: ':' :: '"' :: [] := by
    decide
  simp only [encryptionInitRequestJson, renderStringObject, renderFields, renderField,
    hver, hononeO, hmode, hjwt, hkeyk, escapeString_base64Encode, hpre,
    List.cons_append, List.nil_append, List.append_assoc, List.singleton_append,
    List.append_nil]

theorem encryptionInitRequestJson_ne_newline (key : List Nat) :
    encryptionInitRequestJson key ≠ ['\n'] := by
  intro h
  rw [encryptionInitRequestJson_eq, initJsonPrefix] at h
  have hlen := congrArg List.length h
  simp at hlen

theorem encryptionInitRequestJson_injective (k1 k2 : List Nat)
    (h1 : ∀ b ∈ k1, b < 256) (h2 : ∀ b ∈ k2, b < 256)
    (heq : encryptionInitRequestJson k1 = encryptionInitRequestJson k2) : k1 = k2 := by
  rw [encryptionInitRequestJson_eq, encryptionInitRequestJson_eq] at heq
  have hb64 := List.append_cancel_right (List.append_cancel_left heq)
  have hd1 := base64Decode_base64Encode k1 h1
  have hd2 := base64Decode_base64Encode k2 h2
  rw [hb64, hd2] at hd1
  exact ((Option.some.injEq _ _).mp hd1).symm

/-- Claim C1: startup protocol selection and handoff ordering. When the
"encryption required" flag (`enableIamProvider || enableBearerTokenProvider`,
both derived from environment variables) is false, nothing is ever written
to the worker process's input stream, so no InitMessage is sent; when it is
true, the launch trace is exactly: worker spawn (with `--stdio
--pre-init-encryption`), the two InitMessage stdin writes, then
`client.start()` — hence the InitMessage is fully written to the spawned
worker's stdin before the language client is started and any protocol frame
can be transmitted on that process's channel. -/
theorem startup_protocol_selection (enableIamProvider enableBearerTokenProvider : Bool)
    (serverModule : String) (key : List Nat) :
    ((enableIamProvider || enableBearerTokenProvider) = false →
      stdinWrites (activateDocumentsLanguageServer enableIamProvider
        enableBearerTokenProvider serverModule key) = []) ∧
    ((enableIamProvider || enableBearerTokenProvider) = true →
      activateDocumentsLanguageServer enableIamProvider enableBearerTokenProvider
          serverModule key =
        [LaunchEvent.spawnWorker "node" (serverModule ::
          ["--nolazy", "--inspect=6012", "--preserve-symlinks",
           "--stdio", "--pre-init-encryption"]),
         LaunchEvent.writeWorkerStdin (encryptionInitRequestJson key),
         LaunchEvent.writeWorkerStdin ['\n'],
         LaunchEvent.startLanguageClient] ∧
      stdinWritesBeforeClientStart (activateDocumentsLanguageServer enableIamProvider
        enableBearerTokenProvider serverModule key) =
        [encryptionInitRequestJson key, ['\n']]) := by
  constructor
  · intro h
    simp [activateDocumentsLanguageServer, h, stdinWrites, stdinWriteContent]
  · intro h
    refine ⟨?_, ?_⟩
    · simp [activateDocumentsLanguageServer, h, writeEncryptionInit]
    · simp [activateDocumentsLanguageServer, h, writeEncryptionInit,
        stdinWritesBeforeClientStart, stdinWriteContent, isStartLanguageClient,
        List.takeWhile]

/-- Witness for C1 at concrete flag values. -/
theorem startup_protocol_selection_witness :
    stdinWrites (activateDocumentsLanguageServer false false "out/server.js"
      (List.replicate 32 7)) = [] ∧
    stdinWritesBeforeClientStart (activateDocumentsLanguageServer true false
      "out/server.js" (List.replicate 32 7)) =
      [encryptionInitRequestJson (List.replicate 32 7), ['\n']] :=
  ⟨(startup_protocol_selection false false "out/server.js" (List.replicate 32 7)).1 rfl,
   ((startup_protocol_selection true false "out/server.js"
      (List.replicate 32 7)).2 rfl).2⟩

/-- Claim C2: encryption round-trip. For every credential payload and every
32-byte key, the worker's decryption (compact-JWE decrypt, UTF-8 decode,
deserialize) of the envelope produced by `createUpdateIamCredentialsRequest`
under the same key yields exactly the payload triple. -/
theorem credentials_encrypt_decrypt_roundtrip
    (awsCredentials : AwsCredentialIdentity) (key iv : List Nat)
    (hkey : ∀ b ∈ key, b < 256) (hiv : ∀ b ∈ iv, b < 256) :
    decryptUpdateIamCredentialsRequest key
        (createUpdateIamCredentialsRequest awsCredentials key iv) =
      some ⟨awsCredentials.accessKeyId, awsCredentials.secretAccessKey,
        awsCredentials.sessionToken⟩ := by
  unfold decryptUpdateIamCredentialsRequest createUpdateIamCredentialsRequest
  dsimp only
  rw [compactJweDecrypt_compactJweEncrypt key iv _ hkey hiv (utf8Encode_lt _),
    Option.some_bind, utf8Decode_utf8Encode, Option.some_bind, parse_serialize]

/-- Witness for C2 at a concrete payload, key, and IV. -/
theorem credentials_encrypt_decrypt_roundtrip_witness :
    decryptUpdateIamCredentialsRequest (List.replicate 32 7)
        (createUpdateIamCredentialsRequest ⟨"AKIAEXAMPLE", "secretvalue", none⟩
          (List.replicate 32 7) (List.replicate 12 3)) =
      some ⟨"AKIAEXAMPLE", "secretvalue", none⟩ :=
  credentials_encrypt_decrypt_roundtrip ⟨"AKIAEXAMPLE", "secretvalue", none⟩
    (List.replicate 32 7) (List.replicate 12 3) (by decide) (by decide)

/-- Claim C3: wrong-key rejection. Decrypting the envelope produced under
`key` with any different key fails (returns no value) rather than returning
any plaintext. -/
theorem credentials_wrong_key_rejection
    (awsCredentials : AwsCredentialIdentity) (key key2 iv : List Nat)
    (hkey : ∀ b ∈ key, b < 256) (hiv : ∀ b ∈ iv, b < 256) (hne : key2 ≠ key) :
    decryptUpdateIamCredentialsRequest key2
        (createUpdateIamCredentialsRequest awsCredentials key iv) = none := by
  unfold decryptUpdateIamCredentialsRequest createUpdateIamCredentialsRequest
  dsimp only
  rw [compactJweDecrypt_wrong_key key key2 iv _ hkey hiv (utf8Encode_lt _) hne,
    Option.none_bind]

/-- Witness for C3 at a concrete payload and a concrete pair of distinct
keys. -/
theorem credentials_wrong_key_rejection_witness :
    decryptUpdateIamCredentialsRequest (List.replicate 32 8)
        (createUpdateIamCredentialsRequest ⟨"AKIAEXAMPLE", "secretvalue", none⟩
          (List.replicate 32 7) (List.replicate 12 3)) = none :=
  credentials_wrong_key_rejection ⟨"AKIAEXAMPLE", "secretvalue", none⟩
    (List.replicate 32 7) (List.replicate 32 8) (List.replicate 12 3)
    (by decide) (by decide) (by decide)

/-- Claim C4: select-profile atomicity. If credential resolution fails, the
command aborts with that error and zero notifications are sent; if encoding
fails, likewise; a `sendUpdate` notification is issued only when both
resolution and encoding succeeded, and then it is the single notification
sent. -/
theorem select_profile_atomicity
    (resolveProfile : Except String AwsCredentialIdentity)
    (encode : AwsCredentialIdentity → Except String UpdateCredentialsRequest) :
    (∀ e, resolveProfile = .error e →
      selectProfileCommand resolveProfile encode = .error e ∧
      selectProfileNotificationsSent resolveProfile encode = []) ∧
    (∀ creds e, resolveProfile = .ok creds → encode creds = .error e →
      selectProfileCommand resolveProfile encode = .error e ∧
      selectProfileNotificationsSent resolveProfile encode = []) ∧
    (∀ creds request, resolveProfile = .ok creds → encode creds = .ok request →
      selectProfileCommand resolveProfile encode =
        .ok [sendIamCredentialsUpdate request] ∧
      selectProfileNotificationsSent resolveProfile encode =
        [⟨"$/aws/credentials/iam/update", some request⟩]) := by
  refine ⟨fun e he => ?_, fun creds e hr he => ?_, fun creds request hr he => ?_⟩
  · subst he
    exact ⟨rfl, rfl⟩
  · subst hr
    simp [selectProfileCommand, selectProfileNotificationsSent, he]
  · subst hr
    simp [selectProfileCommand, selectProfileNotificationsSent, he,
      sendIamCredentialsUpdate, notificationTypes, lspMethodNames]

/-- Witness for C4: an unresolvable profile aborts with the resolution
error and sends zero notifications. -/
theorem select_profile_atomicity_witness :
    selectProfileCommand (.error "profile not found")
        (fun _ => .error "encode failed") = .error "profile not found" ∧
    selectProfileNotificationsSent (.error "profile not found")
        (fun _ => .error "encode failed") = [] :=
  (select_profile_atomicity (.error "profile not found")
    (fun _ => .error "encode failed")).1 "profile not found" rfl

/-- Claim C5: InitMessage wire format and key round-trip. The data written
to the worker's stdin is exactly the JSON object
`{"version":"1.0","mode":"JWT","key":"<base64 key>"}` followed by a
newline; in a launch with the IAM flag set it is written exactly once; and
base64-decoding the key field recovers the 32-byte encryption key. -/
theorem init_message_wire_format (key : List Nat) (enableBearerTokenProvider : Bool)
    (serverModule : String) (hkey : ∀ b ∈ key, b < 256) (hlen : key.length = 32) :
    writeEncryptionInit key = [encryptionInitRequestJson key, ['\n']] ∧
    encryptionInitRequestJson key =
      ("\x7b\"version\":\"1.0\",\"mode\":\"JWT\",\"key\":\"").data ++
        (base64Encode key ++ ('"' :: [rbrace])) ∧
    (stdinWrites (activateDocumentsLanguageServer true enableBearerTokenProvider
      serverModule key)).count (encryptionInitRequestJson key) = 1 ∧
    base64Decode (base64Encode key) = some key ∧
    ∃ decoded, base64Decode (base64Encode key) = some decoded ∧
      decoded.length = 32 := by
  refine ⟨rfl, encryptionInitRequestJson_eq key, ?_,
    base64Decode_base64Encode key hkey,
    key, base64Decode_base64Encode key hkey, hlen⟩
  have hw : stdinWrites (activateDocumentsLanguageServer true
      enableBearerTokenProvider serverModule key) =
      [encryptionInitRequestJson key, ['\n']] := by
    simp [activateDocumentsLanguageServer, stdinWrites, stdinWriteContent,
      writeEncryptionInit]
  rw [hw]
  have hne := encryptionInitRequestJson_ne_newline key
  simp [List.count_cons, Ne.symm hne]

/-- Witness for C5 at a concrete 32-byte key. -/
theorem init_message_wire_format_witness :
    base64Decode (base64Encode (List.replicate 32 7)) =
      some (List.replicate 32 7) :=
  (init_message_wire_format (List.replicate 32 7) false "out/server.js"
    (by decide) (by decide)).2.2.2.1

/-- Claim C6 counterexample: the claim says the process-launch/handoff path
does not read the raw key bytes; but `writeEncryptionInit` writes different
data for two different keys, so its output depends on (observes) the raw
key material. -/
theorem key_confinement_counterexample :
    writeEncryptionInit (List.replicate 32 0) ≠
      writeEncryptionInit (List.replicate 32 255) := by
  decide

/-- Claim C6 (amended): the raw key is observed by KeyManager,
CredentialEncoder, AND the process-launch/handoff path — `writeEncryptionInit`
base64-encodes the raw key into the InitMessage, and its output determines
the key exactly; the notification channel and the clear-profile flow never
take the key as an input (their outputs are key-independent). -/
theorem key_confinement_amended (k1 k2 : List Nat)
    (h1 : ∀ b ∈ k1, b < 256) (h2 : ∀ b ∈ k2, b < 256)
    (_hl1 : k1.length = 32) (_hl2 : k2.length = 32) :
    (writeEncryptionInit k1 = writeEncryptionInit k2 ↔ k1 = k2) ∧
    (∀ prior1 prior2, clearProfileCommand prior1 = clearProfileCommand prior2) ∧
    (∀ request, sendIamCredentialsUpdate request =
      ⟨lspMethodNames.iamCredentialsUpdate, some request⟩) := by
  refine ⟨⟨fun h => ?_, fun h => by rw [h]⟩, fun _ _ => rfl, fun _ => rfl⟩
  simp only [writeEncryptionInit, List.cons.injEq, and_true] at h
  exact encryptionInitRequestJson_injective k1 k2 h1 h2 h

/-- Witness for C6 (amended) at two concrete 32-byte keys. -/
theorem key_confinement_amended_witness :
    writeEncryptionInit (List.replicate 32 0) =
        writeEncryptionInit ((List.replicate 32 255 : List Nat)) ↔
      (List.replicate 32 0 : List Nat) = List.replicate 32 255 :=
  (key_confinement_amended (List.replicate 32 0) (List.replicate 32 255)
    (by decide) (by decide) (by decide) (by decide)).1

/-- Claim C7: update notification shape. The envelope produced for any
resolved payload splits at dots into exactly 5 segments — protected header,
(empty) encrypted key, IV, ciphertext, tag — and the update is sent as a
notification with method `$/aws/credentials/iam/update` whose body is the
request `{data: <envelope>}`. -/
theorem update_notification_shape (awsCredentials : AwsCredentialIdentity)
    (key iv : List Nat) :
    (splitDots (createUpdateIamCredentialsRequest awsCredentials key iv).data.data).length
        = 5 ∧
    (∃ ivSeg ctSeg tagSeg,
      splitDots (createUpdateIamCredentialsRequest awsCredentials key iv).data.data =
        [joseProtectedHeaderB64, [], ivSeg, ctSeg, tagSeg]) ∧
    sendIamCredentialsUpdate (createUpdateIamCredentialsRequest awsCredentials key iv) =
      ⟨"$/aws/credentials/iam/update",
        some (createUpdateIamCredentialsRequest awsCredentials key iv)⟩ := by
  have hsplit := splitDots_compactJweEncrypt key iv
    (utf8Encode (serializeUpdateIamCredentialsRequestData
      ⟨awsCredentials.accessKeyId, awsCredentials.secretAccessKey,
       awsCredentials.sessionToken⟩))
  refine ⟨?_, ?_, rfl⟩
  · show (splitDots (compactJweEncrypt key iv _)).length = 5
    rw [hsplit]
    rfl
  · show ∃ ivSeg ctSeg tagSeg,
      splitDots (compactJweEncrypt key iv (utf8Encode
        (serializeUpdateIamCredentialsRequestData
          ⟨awsCredentials.accessKeyId, awsCredentials.secretAccessKey,
           awsCredentials.sessionToken⟩))) =
        [joseProtectedHeaderB64, [], ivSeg, ctSeg, tagSeg]
    rw [hsplit, base64UrlEncode_nil]
    exact ⟨_, _, _, rfl⟩

/-- Claim C8: unconditional clear. Every invocation of the clear-profile
command issues exactly one notification: the delete notification with
method `$/aws/credentials/iam/delete` and no payload, regardless of what
was previously sent. -/
theorem clear_profile_unconditional (previouslySent : List NotificationMessage) :
    clearProfileCommand previouslySent =
      [⟨"$/aws/credentials/iam/delete", none⟩] ∧
    (clearProfileCommand previouslySent).length = 1 :=
  ⟨rfl, rfl⟩

/-- Claim C9: frame property of `configureCredentialsCapabilities`. It sets
`initializationOptions.credentials` to exactly `{providesIam: true}`,
creates `initializationOptions` only when absent (then with no other
members), and leaves every other field of the client options — and every
other member of a pre-existing `initializationOptions` — unchanged. -/
theorem configure_credentials_capabilities_frame
    (clientOptions : LanguageClientOptions) :
    (configureCredentialsCapabilities clientOptions).documentSelector =
      clientOptions.documentSelector ∧
    (configureCredentialsCapabilities clientOptions).synchronize =
      clientOptions.synchronize ∧
    (configureCredentialsCapabilities clientOptions).otherFields =
      clientOptions.otherFields ∧
    ∃ io, (configureCredentialsCapabilities clientOptions).initializationOptions =
        some io ∧
      io.credentials = some ⟨true⟩ ∧
      io.otherFields =
        (clientOptions.initializationOptions.getD ⟨none, []⟩).otherFields :=
  ⟨rfl, rfl, rfl, _, rfl, rfl, rfl⟩

/-- Claim C10: optional-field handling. With no session token the
serialized plaintext object under the `data` wrapper has exactly the
properties `accessKeyId` and `secretAccessKey` — no `sessionToken` property
at all; with a session token present it is included verbatim as a third
property; and the serialized plaintext is exactly the rendering of that
property list wrapped in `{"data": ...}`. -/
theorem session_token_optional_field (d : UpdateIamCredentialsRequestData) :
    (d.sessionToken = none →
      (requestDataFields d).map Prod.fst = [accessKeyIdKey, secretAccessKeyKey] ∧
      sessionTokenKey ∉ (requestDataFields d).map Prod.fst) ∧
    (∀ t, d.sessionToken = some t →
      (requestDataFields d).map Prod.fst =
        [accessKeyIdKey, secretAccessKeyKey, sessionTokenKey] ∧
      (sessionTokenKey, t.data) ∈ requestDataFields d) ∧
    serializeUpdateIamCredentialsRequestData d =
      lbrace :: '"' :: 'd' :: 'a' :: 't' :: 'a' :: '"' :: ':' ::
        (renderStringObject (requestDataFields d) ++ [rbrace]) := by
  refine ⟨fun hnone => ?_, fun t hsome => ?_, rfl⟩
  · rw [requestDataFields, hnone]
    refine ⟨rfl, ?_⟩
    simp only [List.append_nil, List.map_cons, List.map_nil, List.mem_cons,
      List.not_mem_nil, or_false]
    rintro (h | h)
    · exact absurd h (by decide)
    · exact absurd h (by decide)
  · rw [requestDataFields, hsome]
    exact ⟨rfl, by simp⟩

/-- Witness for C10 at one payload without and one with a session token. -/
theorem session_token_optional_field_witness :
    ((requestDataFields ⟨"a", "s", none⟩).map Prod.fst =
        [accessKeyIdKey, secretAccessKeyKey] ∧
      sessionTokenKey ∉ (requestDataFields ⟨"a", "s", none⟩).map Prod.fst) ∧
    ((requestDataFields ⟨"a", "s", some "t"⟩).map Prod.fst =
        [accessKeyIdKey, secretAccessKeyKey, sessionTokenKey] ∧
      (sessionTokenKey, ("t" : String).data) ∈ requestDataFields ⟨"a", "s", some "t"⟩) :=
  ⟨(session_token_optional_field ⟨"a", "s", none⟩).1 rfl,
   ((session_token_optional_field ⟨"a", "s", some "t"⟩).2.1 "t" rfl).1,
   ((session_token_optional_field ⟨"a", "s", some "t"⟩).2.1 "t" rfl).2⟩

end AwsLsp
